import Mathlib

/-!
Verification of the SQLite forensic analyzer core
(`backend/app/sqlite_parser.py`, `backend/app/main.py`) against its
natural-language specification.  Files are modelled as lists of byte
values (`List Nat`, each `< 256`); the SQLite catalog provider is
modelled as explicit data supplied to the functions that query it.
-/

namespace SqliteForensic

/-! ## Byte and hex utilities -/

/-- One hex digit (lower case), as produced by `binascii.hexlify`. -/
def hexDigit (n : Nat) : Char :=
  if n < 10 then Char.ofNat (48 + n) else Char.ofNat (87 + n)

/-- Two-hex-digit rendering of one byte. -/
def byteToHex (b : Nat) : List Char :=
  [hexDigit (b / 16 % 16), hexDigit (b % 16)]

/-- Python `binascii.hexlify`: concatenation of the two-digit hex of every byte. -/
def hexlify (bs : List Nat) : List Char :=
  bs.flatMap byteToHex

/-- Printable-ASCII-or-dot rendering of one byte
(`chr(b) if 32 <= b <= 126 else '.'`). -/
def asciiChar (b : Nat) : Char :=
  if 32 ≤ b ∧ b ≤ 126 then Char.ofNat b else '.'

/-- Big-endian unsigned 16-bit integer from two bytes. -/
def beU16 (b0 b1 : Nat) : Nat := b0 * 256 + b1

/-- Big-endian unsigned 32-bit integer from four bytes
(`struct.unpack('>I', ...)`). -/
def beU32 (b0 b1 b2 b3 : Nat) : Nat :=
  ((b0 * 256 + b1) * 256 + b2) * 256 + b3

/-! ## Header decoding (`parse_header`) -/

/-- The 16 signature bytes `b'SQLite format 3\x00'`. -/
def SQLITE_SIGNATURE : List Nat :=
  [0x53, 0x51, 0x4C, 0x69, 0x74, 0x65, 0x20, 0x66,
   0x6F, 0x72, 0x6D, 0x61, 0x74, 0x20, 0x33, 0x00]

/-- Errors raised by `parse_header` (`ValueError` messages in the source). -/
inductive FormatError where
  | tooShort      -- "File too small to be a valid SQLite database"
  | badSignature  -- "Not a valid SQLite database (incorrect signature)"
deriving DecidableEq, Repr

/-- The decoded header fields, keys of the `header_data` dict. -/
structure HeaderFields where
  signature : List Char
  page_size : Nat
  file_format_write_version : Nat
  file_format_read_version : Nat
  reserved_space : Nat
  max_payload_fraction : Nat
  min_payload_fraction : Nat
  leaf_payload_fraction : Nat
  file_change_counter : Nat
  database_size_pages : Nat
  first_freelist_trunk_page : Nat
  total_freelist_pages : Nat
  schema_cookie : Nat
  schema_format : Nat
  default_page_cache_size : Nat
  largest_root_btree_page : Nat
  text_encoding : String
  user_version : Nat
  vacuum_mode : Nat
  application_id : Nat
  version_valid_for : Nat
  sqlite_version_number : Nat
deriving DecidableEq, Repr

/-- Byte `i` of a byte list (in-range use only). -/
def byteAt (hdr : List Nat) (i : Nat) : Nat := hdr.getD i 0

/-- Big-endian u32 at offset `k` of a byte list. -/
def u32At (hdr : List Nat) (k : Nat) : Nat :=
  beU32 (byteAt hdr k) (byteAt hdr (k+1)) (byteAt hdr (k+2)) (byteAt hdr (k+3))

/-- The text-encoding map
`{1: 'UTF-8', 2: 'UTF-16le', 3: 'UTF-16be'}.get(header[56], 'Unknown')`. -/
def decodeTextEncoding (b : Nat) : String :=
  if b = 1 then "UTF-8"
  else if b = 2 then "UTF-16le"
  else if b = 3 then "UTF-16be"
  else "Unknown"

/-- The source `parse_header`: read the first 100 bytes, fail if fewer than 100 are
available, fail if the first 16 bytes are not the SQLite signature, else
decode every field.  The file is immutable input; decoding is pure. -/
def parse_header (file : List Nat) : Except FormatError HeaderFields :=
  let header := file.take 100
  if header.length < 100 then .error .tooShort
  else if ¬ (SQLITE_SIGNATURE.isPrefixOf header) then .error .badSignature
  else
    let rawPageSize := beU16 (byteAt header 16) (byteAt header 17)
    let pageSize := if rawPageSize = 1 then 65536 else rawPageSize
    .ok {
      signature := hexlify (header.take 16)
      page_size := pageSize
      file_format_write_version := byteAt header 18
      file_format_read_version := byteAt header 19
      reserved_space := byteAt header 20
      max_payload_fraction := byteAt header 21
      min_payload_fraction := byteAt header 22
      leaf_payload_fraction := byteAt header 23
      file_change_counter := u32At header 24
      database_size_pages := u32At header 28
      first_freelist_trunk_page := u32At header 32
      total_freelist_pages := u32At header 36
      schema_cookie := u32At header 40
      schema_format := byteAt header 44
      default_page_cache_size := u32At header 48
      largest_root_btree_page := u32At header 52
      text_encoding := decodeTextEncoding (byteAt header 56)
      user_version := u32At header 60
      vacuum_mode := u32At header 64
      application_id := u32At header 68
      version_valid_for := u32At header 92
      sqlite_version_number := u32At header 96 }

/-! ## Substring matching (Python `needle in haystack` on strings) -/

/-- Python substring containment on character lists: `containsSub hay needle`
is `true` iff `needle` occurs contiguously inside `hay` (the empty needle
occurs in every string). -/
def containsSub (hay needle : List Char) : Bool :=
  match hay with
  | [] => needle.isEmpty
  | _ :: t => needle.isPrefixOf hay || containsSub t needle

/-- Python `str.lower()` restricted to the ASCII case handled by the
artifact signatures and filenames. -/
def lowerChars (s : String) : List Char :=
  s.data.map Char.toLower

/-! ## Artifact classification (`detect_artifact_type`) -/

/-- One entry of the `ARTIFACT_SIGNATURES` table: artifact kind,
required-table set, filename-substring patterns. -/
structure ArtifactSignature where
  kind : String
  tables : List String
  file_patterns : List String
deriving DecidableEq, Repr

/-- The declared-order signature table from the source. -/
def ARTIFACT_SIGNATURES : List ArtifactSignature :=
  [⟨"chrome_history", ["urls", "visits"], ["History"]⟩,
   ⟨"chrome_cookies", ["cookies"], ["Cookies"]⟩,
   ⟨"firefox_history", ["moz_places", "moz_historyvisits"], ["places.sqlite"]⟩,
   ⟨"firefox_cookies", ["moz_cookies"], ["cookies.sqlite"]⟩,
   ⟨"whatsapp_messages", ["messages", "chat_list"], ["msgstore.db"]⟩,
   ⟨"android_contacts", ["contacts", "raw_contacts"], ["contacts2.db"]⟩,
   ⟨"sms_messages", ["sms", "messages"], ["mmssms.db"]⟩,
   ⟨"ios_sms", ["message"], ["sms.db"]⟩,
   ⟨"skype_messages", ["Messages"], ["main.db"]⟩,
   ⟨"telegram_messages", ["messages"], ["telegram.db"]⟩]

/-- The per-signature test of the classification loop: some required table
is present in the catalog and some filename pattern is a case-insensitive
substring of the (base) filename. -/
def sigMatches (catalog : List String) (filename : String) (s : ArtifactSignature) : Bool :=
  s.tables.any (fun t => catalog.contains t) &&
  s.file_patterns.any (fun p => containsSub (lowerChars filename) (lowerChars p))

/-- The source `detect_artifact_type`, translated from the source: empty catalog is
`unknown`; otherwise the first signature matching on both conditions wins;
otherwise the fallback chain runs. `catalog` is the set of table names of
the schema, `filename` the file's base name. -/
def detect_artifact_type (catalog : List String) (filename : String) : String :=
  if catalog.isEmpty then "unknown"
  else
    match ARTIFACT_SIGNATURES.find? (sigMatches catalog filename) with
    | some s => s.kind
    | none =>
      if catalog.contains "urls" && catalog.contains "visits" then "web_browser_history"
      else if catalog.contains "cookies" then "web_browser_cookies"
      else if catalog.contains "messages" then "message_store"
      else if catalog.contains "android_metadata" then "android_app_data"
      else "sqlite_application_data"

/-- Modelled from the spec's words (§4.5): first declared-order signature
matching on both conditions wins; otherwise the six fallback rules apply in
fixed order, ending with generic application data for a non-empty catalog
and `unknown` for an empty one. -/
def classifySpec (catalog : List String) (filename : String) : String :=
  match ARTIFACT_SIGNATURES.find? (sigMatches catalog filename) with
  | some s => s.kind
  | none =>
    if catalog.contains "urls" && catalog.contains "visits" then "web_browser_history"
    else if catalog.contains "cookies" then "web_browser_cookies"
    else if catalog.contains "messages" then "message_store"
    else if catalog.contains "android_metadata" then "android_app_data"
    else if ¬ catalog.isEmpty then "sqlite_application_data"
    else "unknown"

/-! ## Deletion signals (`search_for_deleted_records`) -/

/-- The two signal variants appended by `search_for_deleted_records`
(the slack-space offset is recorded as a number; the source renders it
in hex). -/
inductive DeletionSignal where
  | freelist_pages (count : Nat)
  | slack_space (off size : Nat)
deriving DecidableEq, Repr

/-- The source `search_for_deleted_records` on the happy path: the freelist count
reported by the catalog provider equals the header's
`total_freelist_pages`; the slack-space rule compares the file size with
`database_size_pages * page_size` from the decoded header. -/
def search_for_deleted_records (total_freelist_pages database_size_pages page_size file_size : Nat) :
    List DeletionSignal :=
  let afterRule1 :=
    if 0 < total_freelist_pages then
      [DeletionSignal.freelist_pages total_freelist_pages] else []
  let expected_size := database_size_pages * page_size
  if expected_size < file_size ∧ 0 < expected_size then
    afterRule1 ++ [DeletionSignal.slack_space expected_size (file_size - expected_size)]
  else afterRule1

/-! ## Hex dump (`get_hex_dump`) -/

/-- Consecutive slices `l[i:i+n]` for `i in range(0, len(l), n)`. -/
def chunksOf (n : Nat) : List α → List (List α)
  | [] => []
  | x :: xs => (x :: xs.take (n-1)) :: chunksOf n (xs.drop (n-1))
termination_by l => l.length
decreasing_by simp; omega

/-- One formatted hex row exactly as the source builds it: hexlify the
whole row, then regroup the digit string into two-character slices joined
by single spaces. -/
def hexRowFormatted (row : List Nat) : List Char :=
  List.intercalate [' '] (chunksOf 2 (hexlify row))

/-- The result dict of `get_hex_dump`. -/
structure HexDumpResult where
  offset : Nat
  length : Nat
  hex_data : List (List Char)
  ascii_data : List (List Char)
  error : Option String
deriving DecidableEq, Repr

/-- The source `get_hex_dump` on a successfully read file: seek to `offset`, read up
to `length` bytes, render 16-byte rows in hex and ASCII-or-dot. -/
def get_hex_dump (file : List Nat) (offset length : Nat) : HexDumpResult :=
  let data := (file.drop offset).take length
  { offset := offset
    length := length
    hex_data := (chunksOf 16 data).map hexRowFormatted
    ascii_data := (chunksOf 16 data).map (fun row => row.map asciiChar)
    error := none }

/-- The source `get_hex_dump` including the exception path: a failing read is caught
and surfaced as the `error` field of an otherwise empty result. -/
def get_hex_dump_io (readResult : Except String (List Nat)) (offset length : Nat) : HexDumpResult :=
  match readResult with
  | .error e =>
      { offset := offset, length := length, hex_data := [], ascii_data := [], error := some e }
  | .ok file => get_hex_dump file offset length

/-! ## Hex-pattern search (`find_hex_pattern`) -/

/-- Value of one hex digit, accepting both cases (`binascii.unhexlify`). -/
def hexVal (c : Char) : Option Nat :=
  if '0' ≤ c ∧ c ≤ '9' then some (c.toNat - 48)
  else if 'a' ≤ c ∧ c ≤ 'f' then some (c.toNat - 87)
  else if 'A' ≤ c ∧ c ≤ 'F' then some (c.toNat - 55)
  else none

/-- Python `binascii.unhexlify`: decode a hex string to bytes; fails on an odd
digit count or a non-hex character.  The empty string decodes to the
empty byte string. -/
def unhexlify : List Char → Option (List Nat)
  | [] => some []
  | [_] => none
  | a :: b :: rest =>
    match hexVal a, hexVal b, unhexlify rest with
    | some hi, some lo, some tl => some ((hi * 16 + lo) :: tl)
    | _, _, _ => none

/-- Whether `pat` occurs in `data` starting at index `i`
(Python slice comparison `data[i:i+len(pat)] == pat`). -/
def matchesAt (data pat : List Nat) (i : Nat) : Bool :=
  (data.drop i).take pat.length == pat

/-- Linear scan of candidate indices `i, i+1, ...` for `remaining`
positions, returning the first at which the pattern matches. -/
def findFromAux (data pat : List Nat) : Nat → Nat → Option Nat
  | _, 0 => none
  | i, r+1 => if matchesAt data pat i then some i else findFromAux data pat (i+1) r

/-- Python `bytes.find(pat, start)`: the least index `i ≥ start` at which
`pat` occurs (`none` for `-1`); candidates run up to `len(data)`
inclusive, so the empty pattern is found at `start` itself whenever
`start ≤ len(data)`. -/
def findFrom (data pat : List Nat) (start : Nat) : Option Nat :=
  findFromAux data pat start (data.length + 1 - start)

/-- One match dict of `find_hex_pattern`: absolute offset plus the hex and
ASCII-or-dot renderings of the clipped ±16-byte context window. -/
structure PatternMatch where
  offset : Nat
  context : List Char
  context_ascii : List Char
deriving DecidableEq, Repr

/-- The context window around a match at `off`:
`data[max(0, off-16) : min(len(data), off+len(pat)+16)]`. -/
def contextWindow (data : List Nat) (patLen off : Nat) : List Nat :=
  (data.drop (off - 16)).take (min (data.length) (off + patLen + 16) - (off - 16))

/-- One step-indexed run of the `while True` search loop of
`find_hex_pattern`: `none` means the given fuel was exhausted before the
loop broke, i.e. the source loop has not yet terminated after `fuel`
iterations. -/
def scanLoop (data pat : List Nat) : Nat → Nat → Option (List PatternMatch)
  | 0, _ => none
  | fuel+1, offset =>
    match findFrom data pat offset with
    | none => some []
    | some off =>
      let ctx := contextWindow data pat.length off
      match scanLoop data pat fuel (off + pat.length) with
      | none => none
      | some rest =>
        some ({ offset := off
                context := hexlify ctx
                context_ascii := ctx.map asciiChar } :: rest)

/-- The whole byte-level scan of `find_hex_pattern` with fuel
`len(data) + 1`, which suffices for every non-empty pattern because the
cursor strictly advances. -/
def find_hex_pattern_bytes (data pat : List Nat) : Option (List PatternMatch) :=
  scanLoop data pat (data.length + 1) 0

/-- Result of the full `find_hex_pattern`: either the single error dict
appended by the exception handler, or the list of matches. -/
inductive SearchResult where
  | errorResult (msg : String)
  | found (ms : List PatternMatch)
deriving DecidableEq, Repr

/-- The source `find_hex_pattern` with an explicit fuel for its scan loop: a bad hex
pattern is caught and returned as an error entry; otherwise the scan runs
(and `none` reports loop non-termination within the given fuel). -/
def find_hex_pattern (data : List Nat) (pattern : List Char) (fuel : Nat) :
    Option SearchResult :=
  match unhexlify pattern with
  | none => some (.errorResult "binascii.Error")
  | some pat => (scanLoop data pat fuel 0).map .found

/-! ## Table browsing (`get_table_data`) -/

/-- One live table of the catalog provider, with rows as value lists
aligned with the column list. -/
structure LiveTable where
  name : String
  columns : List String
  rows : List (List String)
deriving DecidableEq, Repr

/-- The live database seen through the provider connection. -/
def Database := List LiveTable

/-- Value of `row` at column `c` (empty when `c` is not a column). -/
def rowVal (columns : List String) (row : List String) (c : String) : String :=
  match columns.findIdx? (fun x => x == c) with
  | some i => row.getD i ""
  | none => ""

/-- Stable insertion sort by a boolean `le` relation, modelling `ORDER BY`
on one column. -/
def insertLe (le : α → α → Bool) (x : α) : List α → List α
  | [] => [x]
  | y :: ys => if le x y then x :: y :: ys else y :: insertLe le x ys

/-- Sort a row list by one column in the given direction. -/
def sortRowsBy (columns : List String) (c direction : String) (rows : List (List String)) :
    List (List String) :=
  let le : List String → List String → Bool :=
    if direction == "DESC" then (fun r1 r2 => rowVal columns r2 c ≤ rowVal columns r1 c)
    else (fun r1 r2 => rowVal columns r1 c ≤ rowVal columns r2 c)
  rows.foldr (insertLe le) []

/-- A `LIKE '%v%'` filter as applied by the source: substring containment
of the bound value inside the column's text. -/
def rowPassesFilters (columns : List String) (fs : List (String × String))
    (row : List String) : Bool :=
  fs.all (fun f => containsSub (rowVal columns row f.1).data f.2.data)

/-- The success dict of `get_table_data`. -/
structure PageResult where
  data : List (List String)
  total_count : Nat
  page : Nat
  page_size : Nat
  total_pages : Nat
deriving DecidableEq, Repr

/-- The source `get_table_data`: validate the table name against the live catalog,
drop filters naming invalid columns, apply the remaining filters
conjunctively, sort only when the sort column is valid, then paginate with
zero-based offset `(page-1)*page_size` and report
`total_pages = (total_count + page_size - 1) / page_size`. -/
def get_table_data (db : Database) (table_name : String) (page page_size : Nat)
    (sort_column : Option String) (sort_direction : String)
    (filters : List (String × String)) : Except String PageResult :=
  match List.find? (fun t => t.name == table_name) db with
  | none => .error ("Table " ++ table_name ++ " not found")
  | some td =>
    let validFilters := filters.filter (fun f => td.columns.contains f.1)
    let filtered := td.rows.filter (rowPassesFilters td.columns validFilters)
    let sorted :=
      match sort_column with
      | some sc =>
        if td.columns.contains sc then sortRowsBy td.columns sc sort_direction filtered
        else filtered
      | none => filtered
    let total_count := filtered.length
    let offset := (page - 1) * page_size
    .ok { data := (sorted.drop offset).take page_size
          total_count := total_count
          page := page
          page_size := page_size
          total_pages := (total_count + page_size - 1) / page_size }

/-! ## Schema extraction (`extract_schema`) -/

/-- One column record from `PRAGMA table_info`. -/
structure ColumnInfo where
  name : String
  colType : String
  not_null : Bool
  default_value : Option String
  primary_key : Bool
deriving DecidableEq, Repr

instance {ε α : Type} [DecidableEq ε] [DecidableEq α] : DecidableEq (Except ε α) := fun x y =>
  match x, y with
  | .ok a, .ok b => if h : a = b then .isTrue (by rw [h]) else .isFalse (by simp [h])
  | .error a, .error b => if h : a = b then .isTrue (by rw [h]) else .isFalse (by simp [h])
  | .ok _, .error _ => .isFalse (by simp)
  | .error _, .ok _ => .isFalse (by simp)

/-- One table as seen through the catalog provider, with the outcome of
each introspection query made for it (`PRAGMA table_info`, `COUNT(*)`,
the 5-row sample select); `.error` models a raised `sqlite3.Error`. -/
structure ProviderTable where
  name : String
  sql : String
  tableInfo : Except String (List ColumnInfo)
  rowCount : Except String Nat
  samples : Except String (List (List (String × String)))
deriving DecidableEq, Repr

/-- One `sqlite_master` row of type index or trigger. -/
structure MasterEntry where
  name : String
  tbl_name : String
  sql : String
deriving DecidableEq, Repr

/-- The whole catalog provider. -/
structure CatalogProvider where
  tables : List ProviderTable
  indices : List MasterEntry
  triggers : List MasterEntry
deriving DecidableEq, Repr

/-- One entry of the extracted `tables` map. -/
structure TableEntry where
  sql : String
  columns : List ColumnInfo
  row_count : Nat
  sample_rows : List (List (String × String))
  indices : List (String × String)
  triggers : List (String × String)
deriving DecidableEq, Repr

/-- The extracted schema: tables, index and trigger maps (association
lists in enumeration order; each index/trigger entry is
name ↦ (owning table, sql)). -/
structure SchemaCatalog where
  tables : List (String × TableEntry)
  indices : List (String × String × String)
  triggers : List (String × String × String)
deriving DecidableEq, Repr

/-- Per-table extraction: skip engine-internal names, skip the table when
column introspection or the row count raises, fall back to an empty
sample list when only the sample select raises. -/
def extractTable (t : ProviderTable) : Option (String × TableEntry) :=
  if t.name.startsWith "sqlite_" then none
  else
    match t.tableInfo with
    | .error _ => none
    | .ok cols =>
      match t.rowCount with
      | .error _ => none
      | .ok rc =>
        let sample_rows :=
          if 0 < rc then
            match t.samples with
            | .ok s => s
            | .error _ => []
          else []
        some (t.name, { sql := t.sql, columns := cols, row_count := rc,
                        sample_rows := sample_rows, indices := [], triggers := [] })

/-- Attach one index row to its owning table's entry, when present. -/
def attachIndex (e : MasterEntry) (ts : List (String × TableEntry)) :
    List (String × TableEntry) :=
  ts.map (fun p =>
    if p.1 = e.tbl_name then (p.1, { p.2 with indices := p.2.indices ++ [(e.name, e.sql)] })
    else p)

/-- Attach one trigger row to its owning table's entry, when present. -/
def attachTrigger (e : MasterEntry) (ts : List (String × TableEntry)) :
    List (String × TableEntry) :=
  ts.map (fun p =>
    if p.1 = e.tbl_name then (p.1, { p.2 with triggers := p.2.triggers ++ [(e.name, e.sql)] })
    else p)

/-- The source `extract_schema`: build the tables map with per-table isolation, then
enumerate indices (dropping engine-internal index names) and triggers
(with no name filter), attaching each to its owning table and recording
it in its own map. -/
def extract_schema (p : CatalogProvider) : SchemaCatalog :=
  let tables0 := p.tables.filterMap extractTable
  let keptIndices := p.indices.filter (fun e => ! e.name.startsWith "sqlite_")
  let tables1 := keptIndices.foldl (fun ts e => attachIndex e ts) tables0
  let tables2 := p.triggers.foldl (fun ts e => attachTrigger e ts) tables1
  { tables := tables2
    indices := keptIndices.map (fun e => (e.name, e.tbl_name, e.sql))
    triggers := p.triggers.map (fun e => (e.name, e.tbl_name, e.sql)) }

/-! ## Shannon entropy (`calculate_entropy` in `main.py`) -/

open scoped BigOperators

/-- The source `calculate_entropy`: 0 for empty input, else
`−Σ p(b)·log2(p(b))` over the observed byte values, with
`p(b) = count(b) / len(data)`.  The source computes this with `math.log2`
over Python floats; the model uses the real-valued function. -/
noncomputable def calculate_entropy (data : List Nat) : ℝ :=
  if data = [] then 0
  else ∑ b ∈ data.toFinset,
    -(((data.count b : ℝ) / (data.length : ℝ)) *
      Real.logb 2 ((data.count b : ℝ) / (data.length : ℝ)))

/-- A block in which every byte value `0..255` occurs exactly `m` times. -/
def uniformBlock (m : Nat) : List Nat :=
  (List.range 256).flatMap (fun b => List.replicate m b)

/-! ## Concrete inputs used by witnesses and by-example clauses -/

/-- A well-formed 100-byte header whose page-size bytes are `b16 b17` and
whose remaining fields are zero. -/
def validHeader (b16 b17 : Nat) : List Nat :=
  SQLITE_SIGNATURE ++ [b16, b17] ++ List.replicate 82 0

/-- A 24-byte well-formed file: the signature followed by eight header
bytes, containing the signature only at offset 0. -/
def sigExampleFile : List Nat :=
  SQLITE_SIGNATURE ++ [0x10, 0x00, 0x01, 0x01, 0x00, 0x40, 0x20, 0x20]

/-- A live database with one 125-row table, for the pagination example. -/
def exampleDb : Database :=
  [{ name := "users", columns := ["id", "name"],
     rows := (List.range 125).map (fun i => [toString i, "user"]) }]

/-- A one-row live database used to instantiate the browse contract. -/
def tinyDb : Database :=
  [{ name := "t", columns := ["c"], rows := [["v"]] }]

/-- Whether an introspection query succeeded. -/
def exceptOk {α : Type} : Except String α → Bool
  | .ok _ => true
  | .error _ => false

/-- The tables kept by `extract_schema`: external name, successful column
introspection, successful row count. -/
def goodTable (t : ProviderTable) : Bool :=
  (! t.name.startsWith "sqlite_") && exceptOk t.tableInfo && exceptOk t.rowCount

/-- A provider whose only trigger carries the engine-internal prefix. -/
def trigProvider : CatalogProvider :=
  { tables := [], indices := [], triggers := [⟨"sqlite_trig", "t", "tsql"⟩] }

/-- The decoded fields of `validHeader 16 0`, used by the page-size witness. -/
def sampleFields4096 : HeaderFields :=
  { signature := ("53514c69746520666f726d6174203300" : String).data
    page_size := 4096
    file_format_write_version := 0
    file_format_read_version := 0
    reserved_space := 0
    max_payload_fraction := 0
    min_payload_fraction := 0
    leaf_payload_fraction := 0
    file_change_counter := 0
    database_size_pages := 0
    first_freelist_trunk_page := 0
    total_freelist_pages := 0
    schema_cookie := 0
    schema_format := 0
    default_page_cache_size := 0
    largest_root_btree_page := 0
    text_encoding := "Unknown"
    user_version := 0
    vacuum_mode := 0
    application_id := 0
    version_valid_for := 0
    sqlite_version_number := 0 }

/-- A one-row live table used to instantiate the browse contract. -/
def tinyTable : LiveTable := { name := "t", columns := ["c"], rows := [["v"]] }

/-- A provider with one healthy table whose sample query fails. -/
def sampleFailProvider : CatalogProvider :=
  { tables := [⟨"good", "create table good(c)", .ok [], .ok 3, .error "boom"⟩],
    indices := [], triggers := [] }

end SqliteForensic

namespace SqliteForensic

theorem sig_isPrefix_iff (file : List Nat) :
    SQLITE_SIGNATURE.isPrefixOf (file.take 100) = true ↔ file.take 16 = SQLITE_SIGNATURE := by
  rw [List.isPrefixOf_iff_prefix, List.prefix_iff_eq_take]
  have hlen : SQLITE_SIGNATURE.length = 16 := rfl
  rw [hlen, List.take_take]
  norm_num
  exact eq_comm

/-- C2: header decoding fails with the too-short error exactly when fewer
than 100 bytes can be read from the file, fails with the bad-signature
error exactly when at least 100 bytes are available but the first 16 bytes
are not the literal SQLite signature, and otherwise succeeds with decoded
fields.  The embedding is a pure function on an immutable byte list, so
the source bytes are never mutated. -/
theorem parse_header_error_spec :
    ∀ file : List Nat,
      (parse_header file = .error .tooShort ↔ file.length < 100)
      ∧ (parse_header file = .error .badSignature ↔
          (100 ≤ file.length ∧ file.take 16 ≠ SQLITE_SIGNATURE))
      ∧ (100 ≤ file.length → file.take 16 = SQLITE_SIGNATURE →
          ∃ hf, parse_header file = .ok hf) := by
  intro file
  have hlen : (file.take 100).length = min 100 file.length := by
    simp [List.length_take]
  by_cases h1 : (file.take 100).length < 100
  · have hfl : file.length < 100 := by omega
    refine ⟨?_, ?_, ?_⟩
    · simp [parse_header, hfl]
    · constructor
      · intro h
        simp [parse_header, hfl] at h
      · rintro ⟨hge, _⟩
        omega
    · exact fun h _ => absurd h (by omega)
  · have hfl : 100 ≤ file.length := by omega
    by_cases h2 : SQLITE_SIGNATURE.isPrefixOf (file.take 100) = true
    · have hsig : file.take 16 = SQLITE_SIGNATURE := (sig_isPrefix_iff file).mp h2
      refine ⟨?_, ?_, ?_⟩
      · simp [parse_header, h1, h2]
      · simp [parse_header, h1, h2, hsig, hfl]
      · intro _ _
        cases hp : parse_header file with
        | ok hf => exact ⟨hf, rfl⟩
        | error e =>
          exfalso
          simp only [parse_header] at hp
          split at hp
          · omega
          · split at hp
            · simp [h2] at *
            · cases hp
    · have hsig : file.take 16 ≠ SQLITE_SIGNATURE := by
        intro hc
        exact h2 ((sig_isPrefix_iff file).mpr hc)
      refine ⟨?_, ?_, ?_⟩
      · simp [parse_header, h1, h2]
      · simp [parse_header, h1, h2, hsig, hfl]
      · intro _ hc
        exact absurd hc hsig

end SqliteForensic

namespace SqliteForensic

theorem byteAt_take (file : List Nat) (i : Nat) (h : i < 100) :
    byteAt (file.take 100) i = byteAt file i := by
  simp [byteAt, List.getD_eq_getElem?_getD, List.getElem?_take, h]

/-- C4: the `page_size` field is decoded from bytes 16-18 as a big-endian
unsigned 16-bit integer, where a raw value of exactly 1 decodes to 65536
and any other raw value (e.g. 4096) decodes to itself. -/
theorem page_size_decode_spec :
    (∀ file hf, parse_header file = .ok hf →
       hf.page_size =
         (if beU16 (byteAt file 16) (byteAt file 17) = 1 then 65536
          else beU16 (byteAt file 16) (byteAt file 17)))
    ∧ ((parse_header (validHeader 0 1)).toOption.map (fun hf => hf.page_size) = some 65536)
    ∧ ((parse_header (validHeader 16 0)).toOption.map (fun hf => hf.page_size) = some 4096) := by
  refine ⟨?_, by decide, by decide⟩
  intro file hf hok
  simp only [parse_header] at hok
  split at hok
  · cases hok
  · split at hok
    · cases hok
    · cases hok
      simp only
      rw [byteAt_take file 16 (by omega), byteAt_take file 17 (by omega)]

end SqliteForensic

namespace SqliteForensic

theorem sigMatches_empty (filename : String) (s : ArtifactSignature) :
    sigMatches [] filename s = false := by
  simp [sigMatches, List.contains]

/-- C1: artifact classification follows the exact declared precedence:
for every catalog and filename, the first signature in declared order
matching on both the table condition and the case-insensitive filename
condition determines the result, and when none matches the fixed fallback
order applies (urls+visits, cookies, messages, android_metadata, non-empty
catalog, unknown), as captured by the spec-modelled `classifySpec`. -/
theorem detect_artifact_type_spec :
    ∀ catalog filename,
      detect_artifact_type catalog filename = classifySpec catalog filename := by
  intro catalog filename
  cases catalog with
  | nil =>
    simp [detect_artifact_type, classifySpec, ARTIFACT_SIGNATURES, List.find?,
      sigMatches_empty, List.contains]
  | cons a l =>
    cases h : ARTIFACT_SIGNATURES.find? (sigMatches (a :: l) filename) with
    | some s => simp [detect_artifact_type, classifySpec, h]
    | none => simp [detect_artifact_type, classifySpec, h]

end SqliteForensic

namespace SqliteForensic

/-- C3: the deletion-signal detector emits a freelist signal carrying the
count exactly when `total_freelist_pages > 0`, and a slack-space signal
with offset `database_size_pages * page_size` and size
`fileSize - offset` exactly when that product is positive and the file
size exceeds it; the rules are independent and can both fire, as the two
concrete runs show. -/
theorem search_for_deleted_records_spec :
    (∀ flc dsp ps fs,
       (∀ c, DeletionSignal.freelist_pages c ∈ search_for_deleted_records flc dsp ps fs
          ↔ (c = flc ∧ 0 < flc))
       ∧ (∀ off sz, DeletionSignal.slack_space off sz ∈ search_for_deleted_records flc dsp ps fs
          ↔ (off = dsp * ps ∧ sz = fs - dsp * ps ∧ dsp * ps < fs ∧ 0 < dsp * ps)))
    ∧ search_for_deleted_records 5 10 4096 40960 = [DeletionSignal.freelist_pages 5]
    ∧ search_for_deleted_records 5 10 4096 45056 =
        [DeletionSignal.freelist_pages 5, DeletionSignal.slack_space 40960 4096] := by
  refine ⟨?_, by decide, by decide⟩
  intro flc dsp ps fs
  constructor
  · intro c
    simp only [search_for_deleted_records]
    split_ifs with h1 h2 <;> simp_all
  · intro off sz
    simp only [search_for_deleted_records]
    split_ifs with h1 h2 <;> simp_all <;> tauto

end SqliteForensic

namespace SqliteForensic

theorem chunksOf_two_hexlify (row : List Nat) :
    chunksOf 2 (hexlify row) = row.map byteToHex := by
  induction row with
  | nil => simp [hexlify, chunksOf]
  | cons b bs ih =>
    simp only [hexlify, List.flatMap_cons] at *
    simp [byteToHex, chunksOf, ih]

/-- C7: the hex dump renders the up-to-`length` bytes readable from
`offset` in 16-byte rows as space-separated two-hex-digit pairs with a
parallel ASCII row mapping bytes 0x20-0x7E to their character and all
others to a dot; a short read at end of file is not an error, an offset
past end of file yields an empty result, and an I/O failure surfaces as
the error field of the result. -/
theorem get_hex_dump_spec :
    ∀ file offset length,
      ((get_hex_dump file offset length).error = none)
      ∧ ((get_hex_dump file offset length).hex_data =
          (chunksOf 16 ((file.drop offset).take length)).map
            (fun row => List.intercalate [' '] (row.map byteToHex)))
      ∧ ((get_hex_dump file offset length).ascii_data =
          (chunksOf 16 ((file.drop offset).take length)).map (fun row => row.map asciiChar))
      ∧ (∀ b, 32 ≤ b → b ≤ 126 → asciiChar b = Char.ofNat b)
      ∧ (∀ b, b < 32 ∨ 126 < b → asciiChar b = '.')
      ∧ (file.length ≤ offset →
          (get_hex_dump file offset length).hex_data = []
          ∧ (get_hex_dump file offset length).ascii_data = [])
      ∧ (∀ msg, (get_hex_dump_io (.error msg) offset length).error = some msg) := by
  intro file offset length
  refine ⟨rfl, ?_, rfl, ?_, ?_, ?_, fun msg => rfl⟩
  · simp [get_hex_dump, hexRowFormatted, chunksOf_two_hexlify]
  · intro b h1 h2
    simp [asciiChar, h1, h2]
  · intro b h
    rcases h with h | h <;> simp [asciiChar] <;> omega
  · intro h
    have hd : file.drop offset = [] := List.drop_eq_nil_of_le h
    simp [get_hex_dump, hd, chunksOf]

end SqliteForensic

namespace SqliteForensic

theorem findFrom_nil_pat (data : List Nat) : findFrom data [] 0 = some 0 := by
  simp [findFrom, findFromAux, matchesAt]

/-- C10: refuted termination claim.  The empty hex string is valid input
to the decoder (it decodes to the empty byte pattern), yet the scan loop
of `find_hex_pattern` makes no progress on it: for the concrete failing
input (empty pattern, empty file) the loop fails to produce a result
within any finite number of iterations, so the source loop never
terminates. -/
theorem find_hex_pattern_empty_diverges :
    (unhexlify [] = some [])
    ∧ (∀ data : List Nat, ∀ fuel, scanLoop data [] fuel 0 = none)
    ∧ (∀ fuel, find_hex_pattern [] [] fuel = none) := by
  have hloop : ∀ (data : List Nat) (fuel : Nat), scanLoop data [] fuel 0 = none := by
    intro data fuel
    induction fuel with
    | zero => rfl
    | succ n ih =>
      rw [scanLoop, findFrom_nil_pat]
      simp [ih]
  refine ⟨rfl, hloop, ?_⟩
  intro fuel
  simp [find_hex_pattern, unhexlify, hloop]

theorem matchesAt_bound {data pat : List Nat} {i : Nat} (hp : pat ≠ [])
    (h : matchesAt data pat i = true) : i + pat.length ≤ data.length := by
  simp [matchesAt] at h
  have hl := congrArg List.length h
  simp [List.length_take, List.length_drop] at hl
  have hpl : 0 < pat.length := List.length_pos.mpr hp
  omega

theorem findFromAux_some {data pat : List Nat} :
    ∀ r i off, findFromAux data pat i r = some off →
      i ≤ off ∧ off < i + r ∧ matchesAt data pat off = true
        ∧ ∀ j, i ≤ j → j < off → matchesAt data pat j = false := by
  intro r
  induction r with
  | zero => intro i off h; cases h
  | succ r ih =>
    intro i off h
    rw [findFromAux] at h
    by_cases hm : matchesAt data pat i = true
    · rw [if_pos hm] at h
      cases h
      exact ⟨le_refl _, by omega, hm, fun j hj1 hj2 => absurd hj1 (by omega)⟩
    · rw [if_neg hm] at h
      obtain ⟨h1, h2, h3, h4⟩ := ih (i+1) off h
      refine ⟨by omega, by omega, h3, ?_⟩
      intro j hj1 hj2
      rcases Nat.eq_or_lt_of_le hj1 with heq | hlt
      · subst heq
        simpa using hm
      · exact h4 j (by omega) hj2

theorem findFromAux_none {data pat : List Nat} :
    ∀ r i, findFromAux data pat i r = none →
      ∀ j, i ≤ j → j < i + r → matchesAt data pat j = false := by
  intro r
  induction r with
  | zero => intro i _ j _ _; omega
  | succ r ih =>
    intro i h j hj1 hj2
    rw [findFromAux] at h
    by_cases hm : matchesAt data pat i = true
    · rw [if_pos hm] at h; cases h
    · rw [if_neg hm] at h
      rcases Nat.eq_or_lt_of_le hj1 with heq | hlt
      · subst heq
        simpa using hm
      · exact ih (i+1) h j (by omega) (by omega)

theorem findFrom_some {data pat : List Nat} {start off : Nat}
    (h : findFrom data pat start = some off) :
    start ≤ off ∧ matchesAt data pat off = true
      ∧ ∀ j, start ≤ j → j < off → matchesAt data pat j = false := by
  obtain ⟨h1, _, h3, h4⟩ := findFromAux_some _ _ _ h
  exact ⟨h1, h3, h4⟩

theorem findFrom_none {data pat : List Nat} {start : Nat}
    (h : findFrom data pat start = none) (hp : pat ≠ []) :
    ∀ j, start ≤ j → matchesAt data pat j = false := by
  intro j hj
  by_cases hcase : j < start + (data.length + 1 - start)
  · exact findFromAux_none _ _ h j hj hcase
  · by_contra hb
    have hmt : matchesAt data pat j = true := by
      simpa using hb
    have hbd := matchesAt_bound hp hmt
    have hpl : 0 < pat.length := List.length_pos.mpr hp
    omega

end SqliteForensic

namespace SqliteForensic

theorem scanLoop_isSome {data pat : List Nat} (hp : pat ≠ []) :
    ∀ fuel offset, offset ≤ data.length → data.length + 1 - offset ≤ fuel →
      (scanLoop data pat fuel offset).isSome = true := by
  intro fuel
  induction fuel with
  | zero => intro offset h1 h2; omega
  | succ n ih =>
    intro offset h1 h2
    rw [scanLoop]
    cases hf : findFrom data pat offset with
    | none => simp
    | some off =>
      obtain ⟨hoff, hm, _⟩ := findFrom_some hf
      have hbound := matchesAt_bound hp hm
      have hpl : 0 < pat.length := List.length_pos.mpr hp
      have hih := ih (off + pat.length) (by omega) (by omega)
      cases hs : scanLoop data pat n (off + pat.length) with
      | none => rw [hs] at hih; simp at hih
      | some rest => simp [hs]

theorem scanLoop_sound {data pat : List Nat} (hp : pat ≠ []) :
    ∀ fuel offset ms, scanLoop data pat fuel offset = some ms →
      (∀ m ∈ ms, offset ≤ m.offset ∧ matchesAt data pat m.offset = true
         ∧ m.context = hexlify (contextWindow data pat.length m.offset)
         ∧ m.context_ascii = (contextWindow data pat.length m.offset).map asciiChar)
      ∧ List.Chain' (fun a b => a.offset + pat.length ≤ b.offset) ms
      ∧ (∀ i, offset ≤ i → matchesAt data pat i = true →
           ∃ m ∈ ms, m.offset ≤ i ∧ i < m.offset + pat.length) := by
  intro fuel
  induction fuel with
  | zero => intro offset ms h; cases h
  | succ n ih =>
    intro offset ms h
    rw [scanLoop] at h
    cases hf : findFrom data pat offset with
    | none =>
      rw [hf] at h
      cases h
      refine ⟨by simp, by simp, ?_⟩
      intro i hi hm
      rw [findFrom_none hf hp i hi] at hm
      cases hm
    | some off =>
      rw [hf] at h
      dsimp only at h
      cases hs : scanLoop data pat n (off + pat.length) with
      | none => rw [hs] at h; cases h
      | some rest =>
        rw [hs] at h
        cases h
        obtain ⟨hoff, hm, hmin⟩ := findFrom_some hf
        obtain ⟨ih1, ih2, ih3⟩ := ih (off + pat.length) rest hs
        have hpl : 0 < pat.length := List.length_pos.mpr hp
        refine ⟨?_, ?_, ?_⟩
        · intro m hmem
          rcases List.mem_cons.mp hmem with heq | hmem'
          · subst heq
            exact ⟨hoff, hm, rfl, rfl⟩
          · obtain ⟨hmo, hmm, hmc, hma⟩ := ih1 m hmem'
            exact ⟨by omega, hmm, hmc, hma⟩
        · rw [List.chain'_cons']
          refine ⟨?_, ih2⟩
          intro y hy
          have hymem : y ∈ rest := List.mem_of_mem_head? hy
          obtain ⟨hyo, _, _, _⟩ := ih1 y hymem
          simpa using hyo
        · intro i hi hmi
          by_cases hcase : i < off + pat.length
          · have hoffi : off ≤ i := by
              by_contra hc
              rw [hmin i hi (by omega)] at hmi
              cases hmi
            exact ⟨_, List.mem_cons_self _ _, hoffi, hcase⟩
          · obtain ⟨m, hmem, hm1, hm2⟩ := ih3 i (by omega) hmi
            exact ⟨m, List.mem_cons_of_mem _ hmem, hm1, hm2⟩

end SqliteForensic

namespace SqliteForensic

/-- C5: for every non-empty byte pattern the scan terminates and reports
a left-to-right, non-overlapping match list (consecutive offsets differ by
at least the pattern length), each match being a true occurrence carrying
the 16-byte-before/after context window clipped to the file bounds, and
every occurrence in the file overlaps some reported match; searching a
well-formed 24-byte example file for the 16-byte signature returns exactly
one match at offset 0. -/
theorem find_hex_pattern_search_spec :
    (∀ data pat : List Nat, pat ≠ [] →
       ∃ ms, find_hex_pattern_bytes data pat = some ms
         ∧ List.Chain' (fun a b => a.offset + pat.length ≤ b.offset) ms
         ∧ (∀ m ∈ ms, matchesAt data pat m.offset = true
              ∧ m.context = hexlify (contextWindow data pat.length m.offset)
              ∧ m.context_ascii = (contextWindow data pat.length m.offset).map asciiChar)
         ∧ (∀ i, matchesAt data pat i = true →
              ∃ m ∈ ms, m.offset ≤ i ∧ i < m.offset + pat.length))
    ∧ ((find_hex_pattern_bytes sigExampleFile SQLITE_SIGNATURE).map
         (fun ms => ms.map (fun m => m.offset)) = some [0]) := by
  refine ⟨?_, by decide⟩
  intro data pat hp
  have hsome := @scanLoop_isSome data pat hp (data.length + 1) 0 (by omega) (by omega)
  cases hs : scanLoop data pat (data.length + 1) 0 with
  | none => rw [hs] at hsome; simp at hsome
  | some ms =>
    obtain ⟨s1, s2, s3⟩ := scanLoop_sound hp _ 0 ms hs
    refine ⟨ms, hs, s2, ?_, ?_⟩
    · intro m hm
      obtain ⟨_, a, b, c⟩ := s1 m hm
      exact ⟨a, b, c⟩
    · intro i hi
      exact s3 i (Nat.zero_le _) hi

end SqliteForensic

namespace SqliteForensic

theorem length_insertLe (le : α → α → Bool) (x : α) :
    ∀ l : List α, (insertLe le x l).length = l.length + 1 := by
  intro l
  induction l with
  | nil => rfl
  | cons y ys ih =>
    rw [insertLe]
    by_cases h : le x y
    · simp [h]
    · simp [h, ih]

theorem length_foldr_insertLe (le : α → α → Bool) :
    ∀ rows : List α, (rows.foldr (insertLe le) []).length = rows.length := by
  intro rows
  induction rows with
  | nil => rfl
  | cons r rs ih => simp [List.foldr_cons, length_insertLe, ih]

theorem length_sortRowsBy (columns : List String) (c direction : String)
    (rows : List (List String)) : (sortRowsBy columns c direction rows).length = rows.length := by
  rw [sortRowsBy]
  exact length_foldr_insertLe _ rows

/-- C6: table browsing errors on a table missing from the live catalog;
for a present table with page and pageSize at least 1 it returns rows
starting at zero-based offset `(page-1)*pageSize` of the processed row
sequence and reports `total_pages` equal to the ceiling of
`total_count / pageSize` (125 rows with pageSize 50 gives 3); an invalid
sort column is silently ignored and an invalid filter column is silently
dropped. -/
theorem get_table_data_spec :
    (∀ db t page ps sc dir fs, List.find? (fun td => td.name == t) db = none →
       get_table_data db t page ps sc dir fs = .error ("Table " ++ t ++ " not found"))
    ∧ (∀ db t page ps sc dir fs td, List.find? (fun td => td.name == t) db = some td →
        1 ≤ page → 1 ≤ ps →
        ∃ r, get_table_data db t page ps sc dir fs = .ok r
          ∧ r.total_count = (td.rows.filter (rowPassesFilters td.columns
              (fs.filter (fun f => td.columns.contains f.1)))).length
          ∧ r.total_pages = (r.total_count + ps - 1) / ps
          ∧ r.total_count ≤ r.total_pages * ps
          ∧ r.total_pages * ps < r.total_count + ps
          ∧ (∃ seq : List (List String), seq.length = r.total_count
              ∧ r.data = (seq.drop ((page - 1) * ps)).take ps))
    ∧ (∀ db t page ps sc dir fs td, List.find? (fun td => td.name == t) db = some td →
        td.columns.contains sc = false →
        get_table_data db t page ps (some sc) dir fs = get_table_data db t page ps none dir fs)
    ∧ (∀ db t page ps sc dir fs td, List.find? (fun td => td.name == t) db = some td →
        get_table_data db t page ps sc dir fs =
          get_table_data db t page ps sc dir (fs.filter (fun f => td.columns.contains f.1)))
    ∧ ((get_table_data exampleDb "users" 1 50 none "ASC" []).toOption.map
         (fun r => (r.total_count, r.total_pages, r.data.length)) = some (125, 3, 50))
    ∧ (get_table_data exampleDb "users" 1 50 none "ASC" [("bogus", "x")]
         = get_table_data exampleDb "users" 1 50 none "ASC" []) := by
  refine ⟨?_, ?_, ?_, ?_, by set_option maxRecDepth 100000 in decide, by set_option maxRecDepth 100000 in decide⟩
  · intro db t page ps sc dir fs h
    simp [get_table_data, h]
  · intro db t page ps sc dir fs td h hpage hps
    have hmod := Nat.div_add_mod ((td.rows.filter (rowPassesFilters td.columns
        (fs.filter (fun f => td.columns.contains f.1)))).length + ps - 1) ps
    have hlt := Nat.mod_lt ((td.rows.filter (rowPassesFilters td.columns
        (fs.filter (fun f => td.columns.contains f.1)))).length + ps - 1) (by omega : 0 < ps)
    refine ⟨_, by rw [get_table_data, h], rfl, rfl, by dsimp only; rw [Nat.mul_comm]; omega, by dsimp only; rw [Nat.mul_comm]; omega, ?_⟩
    cases sc with
    | none => exact ⟨_, rfl, rfl⟩
    | some c =>
      by_cases hc : td.columns.contains c = true
      · refine ⟨sortRowsBy td.columns c dir (td.rows.filter (rowPassesFilters td.columns
            (fs.filter (fun f => td.columns.contains f.1)))), ?_, ?_⟩
        · dsimp only
          rw [length_sortRowsBy]
        · dsimp only
          rw [if_pos hc]
      · have hc' : td.columns.contains c = false := by simpa using hc
        refine ⟨td.rows.filter (rowPassesFilters td.columns
            (fs.filter (fun f => td.columns.contains f.1))), rfl, ?_⟩
        dsimp only
        rw [hc']
        simp
  · intro db t page ps sc dir fs td h hc
    have hmem : ¬ sc ∈ td.columns := by simpa using hc
    simp [get_table_data, h, hmem]
  · intro db t page ps sc dir fs td h
    simp [get_table_data, h, List.filter_filter]

end SqliteForensic

namespace SqliteForensic

theorem attachIndex_map_fst (e : MasterEntry) (ts : List (String × TableEntry)) :
    (attachIndex e ts).map Prod.fst = ts.map Prod.fst := by
  induction ts with
  | nil => rfl
  | cons p ps ih =>
    simp only [attachIndex, List.map_cons] at *
    split <;> simp_all

theorem attachTrigger_map_fst (e : MasterEntry) (ts : List (String × TableEntry)) :
    (attachTrigger e ts).map Prod.fst = ts.map Prod.fst := by
  induction ts with
  | nil => rfl
  | cons p ps ih =>
    simp only [attachTrigger, List.map_cons] at *
    split <;> simp_all

theorem foldl_attachIndex_map_fst :
    ∀ (es : List MasterEntry) (ts : List (String × TableEntry)),
      ((es.foldl (fun acc e => attachIndex e acc) ts).map Prod.fst) = ts.map Prod.fst := by
  intro es
  induction es with
  | nil => intro ts; rfl
  | cons e es ih =>
    intro ts
    rw [List.foldl_cons, ih, attachIndex_map_fst]

theorem foldl_attachTrigger_map_fst :
    ∀ (es : List MasterEntry) (ts : List (String × TableEntry)),
      ((es.foldl (fun acc e => attachTrigger e acc) ts).map Prod.fst) = ts.map Prod.fst := by
  intro es
  induction es with
  | nil => intro ts; rfl
  | cons e es ih =>
    intro ts
    rw [List.foldl_cons, ih, attachTrigger_map_fst]

theorem attachIndex_mem_preserve (e : MasterEntry) (ts : List (String × TableEntry))
    (n : String) (te : TableEntry) (h : (n, te) ∈ ts) :
    ∃ te', (n, te') ∈ attachIndex e ts ∧ te'.sample_rows = te.sample_rows := by
  by_cases hc : n = e.tbl_name
  · refine ⟨{ te with indices := te.indices ++ [(e.name, e.sql)] }, ?_, rfl⟩
    have := List.mem_map_of_mem
      (fun p : String × TableEntry =>
        if p.1 = e.tbl_name then (p.1, { p.2 with indices := p.2.indices ++ [(e.name, e.sql)] })
        else p) h
    simpa [attachIndex, hc] using this
  · refine ⟨te, ?_, rfl⟩
    have := List.mem_map_of_mem
      (fun p : String × TableEntry =>
        if p.1 = e.tbl_name then (p.1, { p.2 with indices := p.2.indices ++ [(e.name, e.sql)] })
        else p) h
    simpa [attachIndex, hc] using this

theorem attachTrigger_mem_preserve (e : MasterEntry) (ts : List (String × TableEntry))
    (n : String) (te : TableEntry) (h : (n, te) ∈ ts) :
    ∃ te', (n, te') ∈ attachTrigger e ts ∧ te'.sample_rows = te.sample_rows := by
  by_cases hc : n = e.tbl_name
  · refine ⟨{ te with triggers := te.triggers ++ [(e.name, e.sql)] }, ?_, rfl⟩
    have := List.mem_map_of_mem
      (fun p : String × TableEntry =>
        if p.1 = e.tbl_name then (p.1, { p.2 with triggers := p.2.triggers ++ [(e.name, e.sql)] })
        else p) h
    simpa [attachTrigger, hc] using this
  · refine ⟨te, ?_, rfl⟩
    have := List.mem_map_of_mem
      (fun p : String × TableEntry =>
        if p.1 = e.tbl_name then (p.1, { p.2 with triggers := p.2.triggers ++ [(e.name, e.sql)] })
        else p) h
    simpa [attachTrigger, hc] using this

theorem foldl_attachIndex_mem_preserve :
    ∀ (es : List MasterEntry) (ts : List (String × TableEntry)) (n : String) (te : TableEntry),
      (n, te) ∈ ts →
      ∃ te', (n, te') ∈ es.foldl (fun acc e => attachIndex e acc) ts
        ∧ te'.sample_rows = te.sample_rows := by
  intro es
  induction es with
  | nil => intro ts n te h; exact ⟨te, h, rfl⟩
  | cons e es ih =>
    intro ts n te h
    obtain ⟨te1, h1, hs1⟩ := attachIndex_mem_preserve e ts n te h
    obtain ⟨te2, h2, hs2⟩ := ih (attachIndex e ts) n te1 h1
    exact ⟨te2, h2, by rw [hs2, hs1]⟩

theorem foldl_attachTrigger_mem_preserve :
    ∀ (es : List MasterEntry) (ts : List (String × TableEntry)) (n : String) (te : TableEntry),
      (n, te) ∈ ts →
      ∃ te', (n, te') ∈ es.foldl (fun acc e => attachTrigger e acc) ts
        ∧ te'.sample_rows = te.sample_rows := by
  intro es
  induction es with
  | nil => intro ts n te h; exact ⟨te, h, rfl⟩
  | cons e es ih =>
    intro ts n te h
    obtain ⟨te1, h1, hs1⟩ := attachTrigger_mem_preserve e ts n te h
    obtain ⟨te2, h2, hs2⟩ := ih (attachTrigger e ts) n te1 h1
    exact ⟨te2, h2, by rw [hs2, hs1]⟩

end SqliteForensic

namespace SqliteForensic

theorem extractTable_none (t : ProviderTable) (h : goodTable t = false) :
    extractTable t = none := by
  by_cases hn : t.name.startsWith "sqlite_" = true
  · simp [extractTable, hn]
  · have hn2 : t.name.startsWith "sqlite_" = false := by simpa using hn
    cases hti : t.tableInfo with
    | error e => simp [extractTable, hn2, hti]
    | ok cols =>
      cases hrc : t.rowCount with
      | error e => simp [extractTable, hn2, hti, hrc]
      | ok rc => simp [goodTable, exceptOk, hn2, hti, hrc] at h

theorem extractTable_some (t : ProviderTable) (h : goodTable t = true) :
    ∃ e, extractTable t = some (t.name, e) := by
  simp only [goodTable, Bool.and_eq_true, Bool.not_eq_true'] at h
  obtain ⟨⟨hn, hti⟩, hrc⟩ := h
  cases hti2 : t.tableInfo with
  | error e => simp [exceptOk, hti2] at hti
  | ok cols =>
    cases hrc2 : t.rowCount with
    | error e => simp [exceptOk, hrc2] at hrc
    | ok rc =>
      exact ⟨{ sql := t.sql, columns := cols, row_count := rc,
               sample_rows :=
                 if 0 < rc then (match t.samples with | .ok s => s | .error _ => []) else [],
               indices := [], triggers := [] },
             by simp [extractTable, hti2, hrc2, hn]⟩

theorem extractTable_sample_error (t : ProviderTable) (hg : goodTable t = true)
    (err : String) (hs : t.samples = .error err) :
    ∃ e, extractTable t = some (t.name, e) ∧ e.sample_rows = [] := by
  simp only [goodTable, Bool.and_eq_true, Bool.not_eq_true'] at hg
  obtain ⟨⟨hn, hti⟩, hrc⟩ := hg
  cases hti2 : t.tableInfo with
  | error e => simp [exceptOk, hti2] at hti
  | ok cols =>
    cases hrc2 : t.rowCount with
    | error e => simp [exceptOk, hrc2] at hrc
    | ok rc =>
      refine ⟨{ sql := t.sql, columns := cols, row_count := rc,
                sample_rows := [], indices := [], triggers := [] }, ?_, rfl⟩
      simp only [extractTable, hti2, hrc2, hn, hs, ite_self]
      rfl

theorem tables0_map_fst (pts : List ProviderTable) :
    ((pts.filterMap extractTable).map Prod.fst) = (pts.filter goodTable).map ProviderTable.name := by
  induction pts with
  | nil => rfl
  | cons t ts ih =>
    by_cases hg : goodTable t = true
    · obtain ⟨e, he⟩ := extractTable_some t hg
      simp [List.filterMap_cons, he, List.filter_cons, hg, ih]
    · have hn := extractTable_none t (by simpa using hg)
      simp [List.filterMap_cons, hn, List.filter_cons, hg, ih]

/-- C8: schema extraction keeps exactly the tables whose introspection
queries succeed, so one failing table is omitted while the rest survive;
a table whose sample query fails stays in the catalog with an empty
sample list; engine-internal names are excluded from the tables and index
maps, while the trigger map is unfiltered and can carry an
engine-internal name, as the concrete provider shows. -/
theorem extract_schema_spec :
    (∀ p : CatalogProvider,
       ((extract_schema p).tables.map Prod.fst = (p.tables.filter goodTable).map ProviderTable.name)
       ∧ (∀ t ∈ p.tables, goodTable t = true → ∀ err, t.samples = .error err →
           ∃ te, (t.name, te) ∈ (extract_schema p).tables ∧ te.sample_rows = [])
       ∧ (∀ n ∈ (extract_schema p).tables.map Prod.fst, n.startsWith "sqlite_" = false)
       ∧ (∀ e ∈ (extract_schema p).indices, e.1.startsWith "sqlite_" = false))
    ∧ ((extract_schema trigProvider).triggers = [("sqlite_trig", "t", "tsql")]) := by
  refine ⟨?_, by decide⟩
  intro p
  have hkeys : (extract_schema p).tables.map Prod.fst
      = (p.tables.filter goodTable).map ProviderTable.name := by
    simp only [extract_schema]
    rw [foldl_attachTrigger_map_fst, foldl_attachIndex_map_fst, tables0_map_fst]
  refine ⟨hkeys, ?_, ?_, ?_⟩
  · intro t ht hg err hs
    obtain ⟨e0, he0, hsr⟩ := extractTable_sample_error t hg err hs
    have hmem0 : (t.name, e0) ∈ p.tables.filterMap extractTable :=
      List.mem_filterMap.mpr ⟨t, ht, he0⟩
    obtain ⟨te1, h1, hs1⟩ := foldl_attachIndex_mem_preserve
      (p.indices.filter (fun e => ! e.name.startsWith "sqlite_"))
      (p.tables.filterMap extractTable) t.name e0 hmem0
    obtain ⟨te2, h2, hs2⟩ := foldl_attachTrigger_mem_preserve
      p.triggers _ t.name te1 h1
    refine ⟨te2, ?_, by rw [hs2, hs1, hsr]⟩
    simpa [extract_schema] using h2
  · intro n hn
    rw [hkeys] at hn
    obtain ⟨t, ht, rfl⟩ := List.mem_map.mp hn
    have hg : goodTable t = true := (List.mem_filter.mp ht).2
    simp only [goodTable, Bool.and_eq_true, Bool.not_eq_true'] at hg
    exact hg.1.1
  · intro e he
    simp only [extract_schema] at he
    obtain ⟨e0, he0, rfl⟩ := List.mem_map.mp he
    have := (List.mem_filter.mp he0).2
    simpa using this

end SqliteForensic

namespace SqliteForensic

theorem entropy_eq_sum_negMulLog (data : List Nat) (hne : data ≠ []) :
    calculate_entropy data =
      (∑ b ∈ data.toFinset, Real.negMulLog ((data.count b : ℝ) / data.length)) / Real.log 2 := by
  rw [calculate_entropy, if_neg hne, Finset.sum_div]
  refine Finset.sum_congr rfl ?_
  intro b _
  rw [Real.negMulLog, Real.logb]
  ring

theorem entropy_nonneg (data : List Nat) : 0 ≤ calculate_entropy data := by
  by_cases h : data = []
  · simp [calculate_entropy, h]
  · rw [entropy_eq_sum_negMulLog data h]
    have hn : 0 < data.length := List.length_pos.mpr h
    apply div_nonneg
    · apply Finset.sum_nonneg
      intro b hb
      apply Real.negMulLog_nonneg
      · positivity
      · rw [div_le_one (by exact_mod_cast hn)]
        exact_mod_cast List.count_le_length b data
    · exact Real.log_nonneg (by norm_num)

end SqliteForensic

namespace SqliteForensic

theorem sum_negMulLog_le_log_card (data : List Nat) (hne : data ≠ []) :
    (∑ b ∈ data.toFinset, Real.negMulLog ((data.count b : ℝ) / data.length))
      ≤ Real.log (data.toFinset.card) := by
  classical
  set S := data.toFinset with hS
  set n := data.length with hn
  have hn0 : 0 < n := List.length_pos.mpr hne
  have hSne : S.Nonempty := by
    obtain ⟨x, hx⟩ := List.exists_mem_of_ne_nil data hne
    exact ⟨x, by simp [hS, List.mem_toFinset, hx]⟩
  have hcard : 0 < S.card := Finset.card_pos.mpr hSne
  have hcardR : (0:ℝ) < S.card := by exact_mod_cast hcard
  have hsum1 : ∑ b ∈ S, (data.count b : ℝ) / n = 1 := by
    rw [← Finset.sum_div]
    rw [div_eq_one_iff_eq (by exact_mod_cast hn0.ne')]
    exact_mod_cast congrArg (Nat.cast : Nat → ℝ) (List.sum_toFinset_count_eq_length data)
  have h1 : ∑ _i ∈ S, (S.card : ℝ)⁻¹ = 1 := by
    rw [Finset.sum_const, nsmul_eq_mul, mul_inv_cancel₀ hcardR.ne']
  have hjensen :
      ∑ i ∈ S, (S.card : ℝ)⁻¹ • Real.negMulLog ((data.count i : ℝ) / n)
        ≤ Real.negMulLog (∑ i ∈ S, (S.card : ℝ)⁻¹ • ((data.count i : ℝ) / n)) :=
    Real.concaveOn_negMulLog.le_map_sum (fun i _ => by positivity) h1
      (fun i _ => Set.mem_Ici.mpr (by positivity))
  have hL : ∑ i ∈ S, (S.card : ℝ)⁻¹ • Real.negMulLog ((data.count i : ℝ) / n)
      = (S.card : ℝ)⁻¹ * ∑ i ∈ S, Real.negMulLog ((data.count i : ℝ) / n) := by
    rw [← Finset.smul_sum, smul_eq_mul]
  have hR : (∑ i ∈ S, (S.card : ℝ)⁻¹ • ((data.count i : ℝ) / n)) = (S.card : ℝ)⁻¹ := by
    rw [← Finset.smul_sum, hsum1, smul_eq_mul, mul_one]
  rw [hL, hR] at hjensen
  have hmul := mul_le_mul_of_nonneg_left hjensen (le_of_lt hcardR)
  rw [← mul_assoc, mul_inv_cancel₀ hcardR.ne', one_mul] at hmul
  have hfin : (S.card : ℝ) * Real.negMulLog ((S.card : ℝ)⁻¹) = Real.log (S.card : ℝ) := by
    rw [Real.negMulLog, Real.log_inv]
    field_simp
  rw [hfin] at hmul
  exact hmul

end SqliteForensic

namespace SqliteForensic

theorem logb_256_eq_8 : Real.logb 2 256 = 8 := by
  have h : (256 : ℝ) = 2 ^ (8 : ℕ) := by norm_num
  rw [h, Real.logb_pow, Real.logb_self_eq_one (by norm_num)]
  norm_num

theorem entropy_le_eight (data : List Nat) (hb : ∀ b ∈ data, b < 256) :
    calculate_entropy data ≤ 8 := by
  by_cases h : data = []
  · simp [calculate_entropy, h]
  · rw [entropy_eq_sum_negMulLog data h]
    have hlog2 : 0 < Real.log 2 := Real.log_pos (by norm_num)
    rw [div_le_iff₀ hlog2]
    calc (∑ b ∈ data.toFinset, Real.negMulLog ((data.count b : ℝ) / data.length))
        ≤ Real.log (data.toFinset.card) := sum_negMulLog_le_log_card data h
      _ ≤ Real.log 256 := by
          apply Real.log_le_log (by
            have : data.toFinset.Nonempty := by
              obtain ⟨x, hx⟩ := List.exists_mem_of_ne_nil data h
              exact ⟨x, by simp [List.mem_toFinset, hx]⟩
            exact_mod_cast Finset.card_pos.mpr this)
          have hsub : data.toFinset ⊆ Finset.range 256 := by
            intro b hbm
            exact Finset.mem_range.mpr (hb b (List.mem_toFinset.mp hbm))
          have := Finset.card_le_card hsub
          simp only [Finset.card_range] at this
          exact_mod_cast this
      _ = 8 * Real.log 2 := by
          have : Real.logb 2 256 = Real.log 256 / Real.log 2 := (Real.log_div_log).symm
          rw [logb_256_eq_8] at this
          field_simp at this
          linarith [this]

end SqliteForensic

namespace SqliteForensic

theorem entropy_replicate (k b : Nat) : calculate_entropy (List.replicate k b) = 0 := by
  cases k with
  | zero => simp [calculate_entropy]
  | succ k =>
    have hne : List.replicate (k+1) b ≠ [] := by simp
    rw [calculate_entropy, if_neg hne]
    rw [List.toFinset_replicate_of_ne_zero (Nat.succ_ne_zero k)]
    rw [Finset.sum_singleton]
    rw [List.count_replicate_self, List.length_replicate]
    rw [div_self (by exact_mod_cast Nat.succ_ne_zero k)]
    simp [Real.logb_one]

theorem length_uniformBlock (m : Nat) : (uniformBlock m).length = 256 * m := by
  rw [uniformBlock, List.length_flatMap]
  have hmap : (List.range 256).map (List.length ∘ fun b : Nat => List.replicate m b)
      = List.replicate 256 m := by
    have hfun : (List.length ∘ fun b : Nat => List.replicate m b) = fun _ : Nat => m :=
      funext (fun b => by simp)
    rw [hfun]
    simp [List.map_const]
  rw [hmap, List.sum_replicate, smul_eq_mul]

theorem count_flatMap_replicate (m b : Nat) :
    ∀ n : Nat, (((List.range n).flatMap (fun x => List.replicate m x)).count b)
      = if b < n then m else 0 := by
  intro n
  induction n with
  | zero => simp
  | succ n ih =>
    rw [List.range_succ, List.flatMap_append, List.count_append, ih]
    have hsing : (([n] : List Nat).flatMap (fun x => List.replicate m x))
        = List.replicate m n := by simp
    rw [hsing, List.count_replicate]
    simp only [beq_iff_eq]
    split_ifs <;> omega

theorem count_uniformBlock (m b : Nat) (hb : b < 256) : (uniformBlock m).count b = m := by
  rw [uniformBlock, count_flatMap_replicate]
  simp [hb]

theorem toFinset_uniformBlock (m : Nat) (hm : 0 < m) :
    (uniformBlock m).toFinset = Finset.range 256 := by
  ext b
  simp only [List.mem_toFinset, uniformBlock, List.mem_flatMap, List.mem_replicate,
    Finset.mem_range]
  constructor
  · rintro ⟨a, ha, _, rfl⟩
    exact List.mem_range.mp ha
  · intro hlt
    exact ⟨b, List.mem_range.mpr hlt, by omega, rfl⟩

theorem log_256_eq : Real.log 256 = 8 * Real.log 2 := by
  have h : (256:ℝ) = 2 ^ (8:ℕ) := by norm_num
  rw [h, Real.log_pow]
  norm_num

theorem entropy_uniformBlock (m : Nat) (hm : 0 < m) :
    calculate_entropy (uniformBlock m) = 8 := by
  have hne : uniformBlock m ≠ [] := by
    intro h
    have hlen := congrArg List.length h
    rw [length_uniformBlock] at hlen
    simp at hlen
    omega
  have hlog2 : 0 < Real.log 2 := Real.log_pos (by norm_num)
  rw [calculate_entropy, if_neg hne, toFinset_uniformBlock m hm, length_uniformBlock]
  have hterm : ∀ b ∈ Finset.range 256,
      -(((uniformBlock m).count b : ℝ) / ((256 * m : Nat) : ℝ) *
        Real.logb 2 (((uniformBlock m).count b : ℝ) / ((256 * m : Nat) : ℝ)))
      = 8 / 256 := by
    intro b hbm
    rw [count_uniformBlock m b (Finset.mem_range.mp hbm)]
    have hmR : (m:ℝ) ≠ 0 := by exact_mod_cast hm.ne'
    have hp : (m : ℝ) / ((256 * m : Nat) : ℝ) = (256 : ℝ)⁻¹ := by
      push_cast
      field_simp
      ring
    rw [hp, Real.logb, Real.log_inv, log_256_eq]
    field_simp
    ring
  rw [Finset.sum_congr rfl hterm, Finset.sum_const, Finset.card_range]
  norm_num

end SqliteForensic

namespace SqliteForensic

/-- C9: the entropy function computes the Shannon entropy of the observed
byte-value distribution and its value lies between 0 and 8 bits for byte
data: it is nonnegative on every input, at most 8 whenever all values are
bytes, 0 on empty input, 0 on any single-valued block, and exactly 8 on a
block in which all 256 byte values occur equally often. -/
theorem calculate_entropy_spec :
    (∀ data : List Nat, 0 ≤ calculate_entropy data)
    ∧ (∀ data : List Nat, (∀ b ∈ data, b < 256) → calculate_entropy data ≤ 8)
    ∧ (calculate_entropy [] = 0)
    ∧ (∀ k b : Nat, calculate_entropy (List.replicate k b) = 0)
    ∧ (∀ m : Nat, 0 < m → calculate_entropy (uniformBlock m) = 8) :=
  ⟨entropy_nonneg, entropy_le_eight, by simp [calculate_entropy], entropy_replicate,
   entropy_uniformBlock⟩

theorem calculate_entropy_spec_witness :
    calculate_entropy [0] ≤ 8 ∧ calculate_entropy (uniformBlock 1) = 8 :=
  ⟨calculate_entropy_spec.2.1 [0] (by intro b hb; simp at hb; omega),
   calculate_entropy_spec.2.2.2.2 1 (by omega)⟩

theorem page_size_decode_spec_witness :
    sampleFields4096.page_size =
      (if beU16 (byteAt (validHeader 16 0) 16) (byteAt (validHeader 16 0) 17) = 1 then 65536
       else beU16 (byteAt (validHeader 16 0) 16) (byteAt (validHeader 16 0) 17)) :=
  page_size_decode_spec.1 (validHeader 16 0) sampleFields4096 (by decide)

theorem parse_header_error_spec_witness :
    ∃ hf, parse_header (validHeader 16 0) = .ok hf :=
  (parse_header_error_spec (validHeader 16 0)).2.2 (by decide) (by decide)

theorem detect_artifact_type_spec_witness :
    detect_artifact_type ["urls", "visits"] "History"
      = classifySpec ["urls", "visits"] "History" :=
  detect_artifact_type_spec ["urls", "visits"] "History"

theorem search_for_deleted_records_spec_witness :
    DeletionSignal.freelist_pages 5 ∈ search_for_deleted_records 5 10 4096 45056
      ↔ (5 = 5 ∧ 0 < 5) :=
  (search_for_deleted_records_spec.1 5 10 4096 45056).1 5

theorem get_hex_dump_spec_witness :
    (get_hex_dump [65] 0 5).error = none
    ∧ asciiChar 65 = Char.ofNat 65
    ∧ asciiChar 0 = '.'
    ∧ ((get_hex_dump [65] 3 5).hex_data = [] ∧ (get_hex_dump [65] 3 5).ascii_data = []) :=
  ⟨(get_hex_dump_spec [65] 0 5).1,
   (get_hex_dump_spec [65] 0 5).2.2.2.1 65 (by omega) (by omega),
   (get_hex_dump_spec [65] 0 5).2.2.2.2.1 0 (Or.inl (by omega)),
   (get_hex_dump_spec [65] 3 5).2.2.2.2.2.1 (by decide)⟩

end SqliteForensic

namespace SqliteForensic

theorem find_hex_pattern_search_spec_witness :
    ∃ ms, find_hex_pattern_bytes [0x53] [0x53] = some ms
      ∧ List.Chain' (fun a b => a.offset + ([0x53] : List Nat).length ≤ b.offset) ms
      ∧ (∀ m ∈ ms, matchesAt [0x53] [0x53] m.offset = true
           ∧ m.context = hexlify (contextWindow [0x53] ([0x53] : List Nat).length m.offset)
           ∧ m.context_ascii = (contextWindow [0x53] ([0x53] : List Nat).length m.offset).map asciiChar)
      ∧ (∀ i, matchesAt [0x53] [0x53] i = true →
           ∃ m ∈ ms, m.offset ≤ i ∧ i < m.offset + ([0x53] : List Nat).length) :=
  find_hex_pattern_search_spec.1 [0x53] [0x53] (by decide)

theorem get_table_data_spec_witness :
    (get_table_data [tinyTable] "missing" 1 1 none "ASC" []
       = .error ("Table " ++ "missing" ++ " not found"))
    ∧ (∃ r, get_table_data [tinyTable] "t" 1 1 none "ASC" [] = .ok r
        ∧ r.total_count = (tinyTable.rows.filter (rowPassesFilters tinyTable.columns
            (([] : List (String × String)).filter (fun f => tinyTable.columns.contains f.1)))).length
        ∧ r.total_pages = (r.total_count + 1 - 1) / 1
        ∧ r.total_count ≤ r.total_pages * 1
        ∧ r.total_pages * 1 < r.total_count + 1
        ∧ (∃ seq : List (List String), seq.length = r.total_count
            ∧ r.data = (seq.drop ((1 - 1) * 1)).take 1))
    ∧ (get_table_data [tinyTable] "t" 1 1 (some "zz") "ASC" []
       = get_table_data [tinyTable] "t" 1 1 none "ASC" [])
    ∧ (get_table_data [tinyTable] "t" 1 1 none "ASC" [("zz", "x")]
       = get_table_data [tinyTable] "t" 1 1 none "ASC"
           ([("zz", "x")].filter (fun f => tinyTable.columns.contains f.1))) :=
  ⟨get_table_data_spec.1 [tinyTable] "missing" 1 1 none "ASC" [] (by decide),
   get_table_data_spec.2.1 [tinyTable] "t" 1 1 none "ASC" [] tinyTable (by decide)
     (by omega) (by omega),
   get_table_data_spec.2.2.1 [tinyTable] "t" 1 1 "zz" "ASC" [] tinyTable (by decide) (by decide),
   get_table_data_spec.2.2.2.1 [tinyTable] "t" 1 1 none "ASC" [("zz", "x")] tinyTable (by decide)⟩

theorem extract_schema_spec_witness :
    ∃ te, ("good", te) ∈ (extract_schema sampleFailProvider).tables ∧ te.sample_rows = [] :=
  (extract_schema_spec.1 sampleFailProvider).2.1
    ⟨"good", "create table good(c)", .ok [], .ok 3, .error "boom"⟩
    (by decide) (by decide) "boom" rfl

end SqliteForensic
